import Mathlib

/-!
Shallow embedding of the `life` Go package (Conway's Game of Life with an
RLE pattern-file decoder), together with theorems checking the package's
natural-language specification against the code.

Conventions of the embedding:
* Go `uint`/`uint64` values are modelled as `Nat`; the few places where the
  64-bit range matters (`strconv.ParseUint(_, 0, 64)`, unsigned subtraction
  underflow in `generateLine`) are modelled explicitly.
* Go `int` values used as coordinates are modelled as `Int`; Go's truncated
  `%` is `Int.tmod`.
* Go byte slices / strings are modelled as `List Char` (all inputs of
  interest are ASCII, so bytes and characters coincide).
* Go runtime panics (out-of-range slice index, `make` with an out-of-range
  length) and the decoder's one possible infinite loop are modelled by
  distinguished result constructors (`panics`, `hangs`), since a Go panic
  or hang is observably different from an `error` return.
* Slice reads/writes in the pure grid accessors (`Field.Alive`,
  `Field.Set`, `Field.cell`) use `List.getD`/`List.set`, which default /
  no-op out of range where Go would panic; every theorem below only
  evaluates them at indices that are in range in Go, which the theorems'
  well-formedness hypotheses guarantee.
-/

namespace Life

/-- `Field` is the two-dimensional board of cells (Go struct `Field`:
a `[][]bool` cell buffer plus width, height and the wrap flag). -/
structure Field where
  s : List (List Bool)
  width : Nat
  height : Nat
  wrap : Bool
deriving DecidableEq, Repr

/-- `NewField` allocates a new all-dead board of the given size
(Go `NewField`). -/
def NewField (width height : Nat) (wrap : Bool) : Field :=
  { s := List.replicate height (List.replicate width false)
    width := width, height := height, wrap := wrap }

/-- `Field.Set` writes value `v` at position `x,y` (Go `(*Field).Set`,
which does `f.s[y][x] = v`; Go panics out of range, the model no-ops). -/
def Field.Set (f : Field) (x y : Nat) (v : Bool) : Field :=
  { f with s := f.s.set y ((f.s.getD y []).set x v) }

/-- Direct in-bounds read of the cell buffer at column `x`, row `y`
(Go expression `f.s[y][x]`). -/
def Field.cell (f : Field) (x y : Nat) : Bool :=
  (f.s.getD y []).getD x false

/-- `Field.Alive` reports whether the cell at `x,y` is alive (Go
`(*Field).Alive`).  The Go body is
`x += w; x %= w; y += h; y %= h; return f.s[y][x]` with `%` the Go
(truncated) integer remainder; note that it never consults `f.wrap`. -/
def Field.Alive (f : Field) (x y : Int) : Bool :=
  let w : Int := (f.width : Int)
  let h : Int := (f.height : Int)
  let x' := (x + w).tmod w
  let y' := (y + h).tmod h
  (f.s.getD y'.toNat []).getD x'.toNat false

/-- The nine loop offsets `(i, j)` for `i, j ∈ {-1, 0, 1}` in the order the
nested Go loops of `Future` visit them. -/
def neighbourOffsets : List (Int × Int) :=
  [(-1, -1), (-1, 0), (-1, 1), (0, -1), (0, 0), (0, 1), (1, -1), (1, 0), (1, 1)]

/-- The neighbour counter accumulated by the loop in `(*Field).Future`:
for each offset, if `wrap` is false and `x+i < 0` or `y+j < 0` the Go loop
`continue`s; otherwise the counter is incremented when the offset is not
`(0,0)` and `Alive(x+i, y+j)` holds. -/
def Field.aliveNeighbours (f : Field) (x y : Nat) : Nat :=
  neighbourOffsets.foldl
    (fun n ij =>
      if ¬ f.wrap ∧ ((x : Int) + ij.1 < 0 ∨ (y : Int) + ij.2 < 0) then n
      else if (ij.2 ≠ 0 ∨ ij.1 ≠ 0) ∧ f.Alive ((x : Int) + ij.1) ((y : Int) + ij.2) = true then
        n + 1
      else n)
    0

/-- `Field.Future` returns the state of the cell at `x,y` at the next tick
(Go `(*Field).Future`): `aliveNeighbours == 3 || aliveNeighbours == 2 && f.Alive(ix, iy)`. -/
def Field.Future (f : Field) (x y : Nat) : Bool :=
  f.aliveNeighbours x y == 3 || (f.aliveNeighbours x y == 2 && f.Alive (x : Int) (y : Int))

/-- `Game` stores the state of a round (Go struct `Game`; the two `*Field`
buffers are modelled as values, the comment as a character list). -/
structure Game where
  current : Field
  next : Field
  width : Nat
  height : Nat
  wrap : Bool
  comment : List Char
deriving DecidableEq, Repr

/-- `Game.Tick` advances one generation (Go `(*Game).Tick`): for every
`y < height`, `x < width` it does `g.next.Set(x, y, g.current.Future(x, y))`,
then swaps the two buffers (`g.current, g.next = g.next, g.current`). -/
def Game.Tick (g : Game) : Game :=
  let next' := (List.range g.height).foldl
    (fun fld y => (List.range g.width).foldl
      (fun fld' x => fld'.Set x y (g.current.Future x y)) fld)
    g.next
  { g with current := next', next := g.current }

/-- Well-formedness of a field buffer relative to the dimensions a loop
uses: `height` rows, each of length `width` (the invariant `NewField`
establishes and Go's fixed-size slices keep). -/
def Field.WF (f : Field) (width height : Nat) : Prop :=
  f.s.length = height ∧ ∀ r ∈ f.s, r.length = width

instance (f : Field) (width height : Nat) : Decidable (f.WF width height) := by
  unfold Field.WF; infer_instance

/-- Modelled from the spec: the standard B3/S23 rule table ("alive next
generation iff neighbor count is exactly 3, or the cell is currently alive
and that count is exactly 2"), stated as a function of the current
aliveness and the neighbour count, for comparison with the code's
`Future`. -/
def specNextState (alive : Bool) (n : Nat) : Bool :=
  if alive then n == 2 || n == 3 else n == 3

end Life

namespace Life

/-- For `0 < w` and `-w ≤ x`, the index computation of `Field.Alive`
(`(x + w).tmod w`, Go's `x += w; x %= w`) agrees with the Euclidean
remainder `x % w`. -/
theorem tmod_shift {w x : Int} (hw : 0 < w) (hx : -w ≤ x) :
    (x + w).tmod w = x % w := by
  rw [Int.tmod_eq_emod (by omega) (by omega)]
  calc (x + w) % w = (x + w * 1) % w := by rw [Int.mul_one]
    _ = x % w := Int.add_mul_emod_self_left x w 1

/-- C1: for every grid and in-bounds cell position, `Future` (the code's
`NextState`) agrees with the spec's standard rule table applied to the
cell's current aliveness and the neighbour count the code accumulates:
alive next generation iff the count is exactly 3, or the cell is alive and
the count is exactly 2. -/
theorem C1_future_matches_rule (f : Field) (x y : Nat)
    (hx : x < f.width) (hy : y < f.height) :
    f.Future x y = specNextState (f.Alive (x : Int) (y : Int)) (f.aliveNeighbours x y) := by
  unfold Field.Future specNextState
  cases h : f.Alive (x : Int) (y : Int) <;> simp [h, Bool.or_comm]

/-- A concrete 3×3 board (a vertical blinker) used as the witness input. -/
def blinker : Field :=
  { s := [[false, true, false], [false, true, false], [false, true, false]]
    width := 3, height := 3, wrap := true }

theorem C1_witness :
    blinker.Future 1 1 = specNextState (blinker.Alive 1 1) (blinker.aliveNeighbours 1 1) :=
  C1_future_matches_rule blinker 1 1 (by decide) (by decide)

/-- A 2×1 board with both cells alive, constructed with `wrap = false`. -/
def nowrapField : Field :=
  { s := [[true, true]], width := 2, height := 1, wrap := false }

/-- C2 (divergence witness): on a `wrap = false` field, `Alive (-1) y` and
`Alive width y` do not return `false` — `Alive` never consults the wrap
flag and wraps unconditionally, reading the buffer at the opposite edge. -/
theorem C2_nowrap_alive_wraps :
    nowrapField.Alive (-1) 0 = true ∧ nowrapField.Alive 2 0 = true := by
  constructor <;> rfl

/-- C8: with any positive dimensions, `Alive (-1) 0 = Alive (width-1) 0`
and `Alive width 0 = Alive 0 0`, and more generally on the domain where
the Go code is defined (`x ≥ -width`, `y ≥ -height`) coordinates are
reduced by floor-style wraparound: `Alive x y = Alive (x.fmod width) (y.fmod height)`. -/
theorem C8_toroidal_wrap (f : Field) (hw : 0 < f.width) (hh : 0 < f.height) :
    (f.Alive (-1) 0 = f.Alive ((f.width : Int) - 1) 0) ∧
    (f.Alive (f.width : Int) 0 = f.Alive 0 0) ∧
    (∀ x y : Int, -(f.width : Int) ≤ x → -(f.height : Int) ≤ y →
      f.Alive x y = f.Alive (x.fmod (f.width : Int)) (y.fmod (f.height : Int))) := by
  have hw' : (0 : Int) < (f.width : Int) := by exact_mod_cast hw
  have hh' : (0 : Int) < (f.height : Int) := by exact_mod_cast hh
  have key : ∀ x y : Int, -(f.width : Int) ≤ x → -(f.height : Int) ≤ y →
      f.Alive x y = f.Alive (x.fmod (f.width : Int)) (y.fmod (f.height : Int)) := by
    intro x y hx hy
    unfold Field.Alive
    have hxm : x.fmod (f.width : Int) = x % (f.width : Int) :=
      Int.fmod_eq_emod x (by omega)
    have hym : y.fmod (f.height : Int) = y % (f.height : Int) :=
      Int.fmod_eq_emod y (by omega)
    have hx1 : (x + (f.width : Int)).tmod (f.width : Int) = x % (f.width : Int) :=
      tmod_shift hw' hx
    have hy1 : (y + (f.height : Int)).tmod (f.height : Int) = y % (f.height : Int) :=
      tmod_shift hh' hy
    have hx0 : 0 ≤ x % (f.width : Int) := Int.emod_nonneg x (by omega)
    have hxlt : x % (f.width : Int) < (f.width : Int) := Int.emod_lt_of_pos x hw'
    have hy0 : 0 ≤ y % (f.height : Int) := Int.emod_nonneg y (by omega)
    have hylt : y % (f.height : Int) < (f.height : Int) := Int.emod_lt_of_pos y hh'
    have hx2 : (x % (f.width : Int) + (f.width : Int)).tmod (f.width : Int)
        = x % (f.width : Int) := by
      rw [tmod_shift hw' (by omega), Int.emod_emod_of_dvd x dvd_rfl]
    have hy2 : (y % (f.height : Int) + (f.height : Int)).tmod (f.height : Int)
        = y % (f.height : Int) := by
      rw [tmod_shift hh' (by omega), Int.emod_emod_of_dvd y dvd_rfl]
    simp only [hxm, hym, hx1, hy1, hx2, hy2]
  refine ⟨?_, ?_, key⟩
  · have h1 := key (-1) 0 (by omega) (by omega)
    have h2 := key ((f.width : Int) - 1) 0 (by omega) (by omega)
    rw [h1, h2]
    have hneg : (-1 : Int) % (f.width : Int) = (f.width : Int) - 1 := by
      have h3 : ((-1 : Int) + (f.width : Int) * 1) % (f.width : Int)
          = (-1 : Int) % (f.width : Int) :=
        Int.add_mul_emod_self_left (-1) (f.width : Int) 1
      rw [Int.mul_one] at h3
      have h4 : (-1 : Int) + (f.width : Int) = (f.width : Int) - 1 := by ring
      rw [h4, Int.emod_eq_of_lt (by omega) (by omega)] at h3
      omega
    have : (-1 : Int).fmod (f.width : Int) = ((f.width : Int) - 1).fmod (f.width : Int) := by
      rw [Int.fmod_eq_emod _ (by omega), Int.fmod_eq_emod _ (by omega), hneg,
        Int.emod_eq_of_lt (by omega) (by omega)]
    rw [this]
  · have h1 := key (f.width : Int) 0 (by omega) (by omega)
    have h2 := key 0 0 (by omega) (by omega)
    rw [h1, h2]
    have : ((f.width : Int)).fmod (f.width : Int) = (0 : Int).fmod (f.width : Int) := by
      rw [Int.fmod_eq_emod _ (by omega), Int.fmod_eq_emod _ (by omega)]
      simp [Int.emod_self]
    rw [this]

theorem C8_witness :
    (blinker.Alive (-1) 0 = blinker.Alive ((blinker.width : Int) - 1) 0) ∧
    (blinker.Alive (blinker.width : Int) 0 = blinker.Alive 0 0) ∧
    (∀ x y : Int, -(blinker.width : Int) ≤ x → -(blinker.height : Int) ≤ y →
      blinker.Alive x y
        = blinker.Alive (x.fmod (blinker.width : Int)) (y.fmod (blinker.height : Int))) :=
  C8_toroidal_wrap blinker (by decide) (by decide)

/-- Length of a buffer row, with the `getD` default used by the model. -/
def Field.rowLen (f : Field) (y : Nat) : Nat :=
  (f.s.getD y []).length

theorem length_s_Set (f : Field) (x y : Nat) (v : Bool) :
    (f.Set x y v).s.length = f.s.length := by
  simp [Field.Set]

theorem rowLen_Set (f : Field) (x y y' : Nat) (v : Bool) :
    (f.Set x y v).rowLen y' = f.rowLen y' := by
  unfold Field.rowLen Field.Set
  simp only [List.getD_eq_getElem?_getD]
  rcases eq_or_ne y' y with rfl | hne
  · by_cases h : y' < f.s.length
    · rw [List.getElem?_set_eq_of_lt _ h]
      simp only [Option.getD_some]
      rw [List.getElem?_eq_getElem h]
      simp
    · rw [List.getElem?_eq_none (by simpa using Nat.le_of_not_lt h),
        List.getElem?_eq_none (by omega)]
  · rw [List.getElem?_set_ne (by omega)]

theorem cell_Set_same (f : Field) (x y : Nat) (v : Bool)
    (hy : y < f.s.length) (hx : x < f.rowLen y) :
    (f.Set x y v).cell x y = v := by
  unfold Field.cell Field.Set Field.rowLen at *
  simp only [List.getD_eq_getElem?_getD]
  rw [List.getElem?_set_eq_of_lt _ hy]
  simp only [Option.getD_some]
  rw [List.getElem?_set_eq_of_lt]
  · simp
  · simpa [List.getD_eq_getElem?_getD] using hx

theorem cell_Set_other (f : Field) (x y x' y' : Nat) (v : Bool)
    (h : x' ≠ x ∨ y' ≠ y) :
    (f.Set x y v).cell x' y' = f.cell x' y' := by
  unfold Field.cell Field.Set
  simp only [List.getD_eq_getElem?_getD]
  rcases eq_or_ne y' y with rfl | hne
  · have hx : x' ≠ x := by tauto
    by_cases hlt : y' < f.s.length
    · rw [List.getElem?_set_eq_of_lt _ hlt]
      simp only [Option.getD_some]
      rw [List.getElem?_set_ne (by omega)]
    · have hnone : f.s[y']? = none := List.getElem?_eq_none (by omega)
      rw [List.getElem?_set, if_pos rfl, if_neg hlt, hnone]
  · rw [List.getElem?_set_ne (by omega)]

/-- Properties of one inner `Tick` loop pass (the `x` loop writing row `y`):
buffer shape is preserved, and a cell read afterwards returns the written
value at `(x', y)` for `x' < n` and the old value elsewhere. -/
theorem foldRow_props (F : Nat → Bool) (y : Nat) (n : Nat) (fld : Field) :
    (((List.range n).foldl (fun a x => a.Set x y (F x)) fld).s.length = fld.s.length) ∧
    (∀ y', ((List.range n).foldl (fun a x => a.Set x y (F x)) fld).rowLen y' = fld.rowLen y') ∧
    (y < fld.s.length → n ≤ fld.rowLen y →
      ∀ x' y', ((List.range n).foldl (fun a x => a.Set x y (F x)) fld).cell x' y'
        = if y' = y ∧ x' < n then F x' else fld.cell x' y') := by
  induction n with
  | zero =>
    refine ⟨rfl, fun y' => rfl, ?_⟩
    intro _ _ x' y'
    simp
  | succ n ih =>
    simp only [List.range_succ, List.foldl_append, List.foldl_cons, List.foldl_nil]
    obtain ⟨ihlen, ihrow, ihcell⟩ := ih
    refine ⟨?_, ?_, ?_⟩
    · rw [length_s_Set, ihlen]
    · intro y'
      rw [rowLen_Set, ihrow]
    · intro hy hn x' y'
      have hylen : y < ((List.range n).foldl (fun a x => a.Set x y (F x)) fld).s.length := by
        rw [ihlen]; exact hy
      have hrow : ((List.range n).foldl (fun a x => a.Set x y (F x)) fld).rowLen y
          = fld.rowLen y := ihrow y
      by_cases hy' : y' = y
      · subst hy'
        by_cases hx' : x' = n
        · subst hx'
          rw [cell_Set_same _ _ _ _ hylen (by omega)]
          simp
        · rw [cell_Set_other _ _ _ _ _ _ (Or.inl hx')]
          rw [ihcell hy (by omega) x' y']
          have hiff : (y' = y' ∧ x' < n) ↔ (y' = y' ∧ x' < n + 1) := by
            constructor <;> intro hc <;> exact ⟨rfl, by omega⟩
          rw [if_congr hiff rfl rfl]
      · rw [cell_Set_other _ _ _ _ _ _ (Or.inr hy')]
        rw [ihcell hy (by omega) x' y']
        simp [hy']

/-- Properties of the full double loop of `Tick`: after writing every
position `(x, y)` with `x < W`, `y < m` into `fld`, reading cell `(x', y')`
returns the written value inside that rectangle and the old cell outside
it. -/
theorem foldAll_props (F : Nat → Nat → Bool) (W : Nat) (m : Nat) (fld : Field) :
    (((List.range m).foldl
        (fun a y => (List.range W).foldl (fun b x => b.Set x y (F x y)) a) fld).s.length
      = fld.s.length) ∧
    (∀ y', ((List.range m).foldl
        (fun a y => (List.range W).foldl (fun b x => b.Set x y (F x y)) a) fld).rowLen y'
      = fld.rowLen y') ∧
    (m ≤ fld.s.length → (∀ y, y < m → W ≤ fld.rowLen y) →
      ∀ x' y', ((List.range m).foldl
          (fun a y => (List.range W).foldl (fun b x => b.Set x y (F x y)) a) fld).cell x' y'
        = if y' < m ∧ x' < W then F x' y' else fld.cell x' y') := by
  induction m with
  | zero =>
    refine ⟨rfl, fun y' => rfl, ?_⟩
    intro _ _ x' y'
    simp
  | succ m ih =>
    simp only [List.range_succ, List.foldl_append, List.foldl_cons, List.foldl_nil]
    obtain ⟨ihlen, ihrow, ihcell⟩ := ih
    obtain ⟨rlen, rrow, rcell⟩ := foldRow_props (fun x => F x m) m W
      ((List.range m).foldl (fun a y => (List.range W).foldl (fun b x => b.Set x y (F x y)) a) fld)
    refine ⟨?_, ?_, ?_⟩
    · rw [rlen, ihlen]
    · intro y'
      rw [rrow, ihrow]
    · intro hm hW x' y'
      have h1 : m < ((List.range m).foldl
          (fun a y => (List.range W).foldl (fun b x => b.Set x y (F x y)) a) fld).s.length := by
        rw [ihlen]; omega
      have h2 : W ≤ ((List.range m).foldl
          (fun a y => (List.range W).foldl (fun b x => b.Set x y (F x y)) a) fld).rowLen m := by
        rw [ihrow]; exact hW m (by omega)
      rw [rcell h1 h2 x' y']
      by_cases hy' : y' = m
      · subst hy'
        by_cases hx' : x' < W
        · simp [hx']
        · simp only [hx', and_false, if_false]
          rw [ihcell (by omega) (fun y hy => hW y (by omega)) x' y']
          simp [hx']
      · simp only [hy', false_and, if_false]
        rw [ihcell (by omega) (fun y hy => hW y (by omega)) x' y']
        have hiff : (y' < m ∧ x' < W) ↔ (y' < m + 1 ∧ x' < W) := by
          constructor <;> intro hc <;> exact ⟨by omega, hc.2⟩
        rw [if_congr hiff rfl rfl]

/-- On a well-formed buffer, every row visible to an in-range loop index
has length `width`. -/
theorem rowLen_of_WF {f : Field} {W H : Nat} (h : f.WF W H) {y : Nat} (hy : y < H) :
    f.rowLen y = W := by
  obtain ⟨hl, hr⟩ := h
  unfold Field.rowLen
  rw [List.getD_eq_getElem?_getD, List.getElem?_eq_getElem (by omega)]
  exact hr _ (List.getElem_mem _)

/-- C9: after one `Tick`, the readable current grid holds, at every
in-bounds position, `Future` of the pre-`Tick` current grid, and the two
buffers have exchanged roles: the new scratch buffer is exactly the old
current one (no fresh buffer appears — the new current grid is obtained
from the old scratch buffer purely by in-place `Set` writes). -/
theorem C9_tick_swap (g : Game) (hnext : g.next.WF g.width g.height) :
    (∀ x y, x < g.width → y < g.height → (g.Tick).current.cell x y = g.current.Future x y) ∧
    (g.Tick).next = g.current := by
  constructor
  · intro x y hx hy
    obtain ⟨alen, arow, acell⟩ :=
      foldAll_props (fun x y => g.current.Future x y) g.width g.height g.next
    show ((List.range g.height).foldl
        (fun a y => (List.range g.width).foldl
          (fun b x => b.Set x y (g.current.Future x y)) a) g.next).cell x y
      = g.current.Future x y
    rw [acell (le_of_eq hnext.1.symm)
      (fun y' hy' => le_of_eq (rowLen_of_WF hnext hy').symm) x y]
    simp [hx, hy]
  · rfl

/-- A concrete 2×1 game used as the witness input for the tick theorem. -/
def tickGame : Game :=
  { current := { s := [[true, false]], width := 2, height := 1, wrap := true }
    next := { s := [[false, false]], width := 2, height := 1, wrap := true }
    width := 2, height := 1, wrap := true, comment := [] }

theorem C9_witness :
    (tickGame.Tick).current.cell 0 0 = tickGame.current.Future 0 0 ∧
    (tickGame.Tick).next = tickGame.current :=
  ⟨(C9_tick_swap tickGame (by decide)).1 0 0 (by decide) (by decide),
   (C9_tick_swap tickGame (by decide)).2⟩

/-! ## The RLE decoder (`LoadGame` and its helpers)

`LoadGame` is modelled on the sequence of text lines the `bufio.Scanner`
produces from the file (the scanner splits on newlines and strips a
trailing carriage return).  The file-system preamble of `LoadGame`
(`os.Open`, `Stat`, the directory and `.rle`-extension checks) is I/O
outside the text decoder and is not part of the model; every theorem
below is about the decoding of the scanned lines. -/

/-- Does `hay` start with `needle`? (helper for the byte-level substring
tests the Go code performs). -/
def beginsWith : List Char → List Char → Bool
  | _, [] => true
  | [], _ :: _ => false
  | c :: cs, d :: ds => c == d && beginsWith cs ds

/-- Substring containment on character lists: semantics of Go
`bytes.Contains` (and of a regexp match against a literal pattern). -/
def hasSub : List Char → List Char → Bool
  | [], needle => needle.isEmpty
  | c :: cs, needle => beginsWith (c :: cs) needle || hasSub cs needle

/-- The Go package-level variable `rule = []byte("rule")`. -/
def ruleBytes : List Char := ['r', 'u', 'l', 'e']

/-- The literal `b3/s23` that `lifeRuleRegex` looks for. -/
def b3s23 : List Char := ['b', '3', '/', 's', '2', '3']

/-- The header rule test of `LoadGame`:
`bytes.Contains(line, rule) && !lifeRuleRegex.Match(line)` with
`lifeRuleRegex = (?i)b3/s23` — a case-insensitive substring search,
modelled by lowercasing the line first. -/
def ruleRejected (line : List Char) : Bool :=
  hasSub line ruleBytes && !(hasSub (line.map Char.toLower) b3s23)

/-- All maximal decimal digit runs of a line, left to right: the matches
of `widthHeightRegex = \d+`.  `cur` accumulates the run in progress in
reverse. -/
def digitRunsAux : List Char → List Char → List (List Char)
  | [], cur => if cur.isEmpty then [] else [cur.reverse]
  | c :: cs, cur =>
    if c.isDigit then digitRunsAux cs (c :: cur)
    else if cur.isEmpty then digitRunsAux cs []
    else cur.reverse :: digitRunsAux cs []

def digitRuns (l : List Char) : List (List Char) := digitRunsAux l []

/-- Go `strconv.ParseUint(s, 0, 64)` restricted to the digit-only strings
the regexes can produce.  Base 0 means: a single `0` is zero; a leading
`0` followed by more digits selects octal (so a digit `8` or `9` then
fails); otherwise decimal.  Values of 2^64 or more are out of range. -/
def decVal (s : List Char) : Nat :=
  s.foldl (fun n c => n * 10 + (c.toNat - 48)) 0

def octVal (s : List Char) : Nat :=
  s.foldl (fun n c => n * 8 + (c.toNat - 48)) 0

def parseUintBase0 (s : List Char) : Option Nat :=
  if s.isEmpty then none
  else if !(s.all Char.isDigit) then none
  else match s with
    | '0' :: [] => some 0
    | '0' :: rest =>
      if rest.all (fun c => decide (c.toNat ≤ 55)) then
        if octVal rest < 2 ^ 64 then some (octVal rest) else none
      else none
    | s' => if decVal s' < 2 ^ 64 then some (decVal s') else none

/-- `tag2bool`: tag `o` is an alive cell, anything else (in particular
`b`) a dead cell. -/
def tag2bool (tag : Char) : Bool := tag == 'o'

/-- Is a character one of the characters matched by the class `[b|o]` of
`itemRegex`? (the class contains the literal bar). -/
def isTag (c : Char) : Bool := c == 'b' || c == '|' || c == 'o'

/-- The token stream `itemRegex.FindAll(rawItem, -1)` produces for
`itemRegex = (?U)\d+[b|o]+|[b|o]`.  With the ungreedy flag the first
alternative matches a maximal digit run followed by exactly one tag
character; otherwise a single tag character matches; all other bytes
separate matches.  `run` holds (reversed) the digit run in progress. -/
def rleTokensAux : List Char → List Char → List (List Char)
  | [], _ => []
  | c :: cs, run =>
    if c.isDigit then rleTokensAux cs (c :: run)
    else if isTag c then
      (if run.isEmpty then [c] else run.reverse ++ [c]) :: rleTokensAux cs []
    else rleTokensAux cs []

def rleTokens (l : List Char) : List (List Char) := rleTokensAux l []

/-- Result of `generateLine`: a decoded row, a `strconv` parse error, or a
Go runtime panic (`make([]bool, width-uint(len(line)))` underflows when
the decoded cells exceed `width`, and `make` with such a length panics). -/
inductive GenRes
  | ok (row : List Bool)
  | errU
  | panics
deriving DecidableEq, Repr

/-- The cells of the token list, in order (the `line` accumulated by the
loop of `generateLine`): a single-character token contributes one cell,
otherwise the leading digits parse as the run count (base 0, 64 bit) and
the final tag is repeated that often.  `none` is a parse error. -/
def genCells : List (List Char) → Option (List Bool)
  | [] => some []
  | t :: ts =>
    let cells : Option (List Bool) :=
      if t.length = 1 then some [tag2bool (t.headD ' ')]
      else match parseUintBase0 t.dropLast with
        | none => none
        | some rc => some (List.replicate rc (tag2bool (t.getLastD ' ')))
    match cells, genCells ts with
    | some c, some rest => some (c ++ rest)
    | _, _ => none

/-- `generateLine(rawItem, width)`: decode one `$`-separated pattern
segment and pad it with dead cells to `width`.  If the decoded cells
already exceed `width`, the Go padding length `width - len(line)` wraps
around as an unsigned integer and `make` panics. -/
def generateLine (rawItem : List Char) (width : Nat) : GenRes :=
  match genCells (rleTokens rawItem) with
  | none => .errU
  | some cells =>
    if cells.length ≤ width then .ok (cells ++ List.replicate (width - cells.length) false)
    else .panics

/-- The distinct error values `LoadGame` can return (Go returns
`fmt.Errorf`/`strconv` error values; the constructors identify the return
sites). -/
inductive LifeErr
  | rulesNotSupported
  | paramCount (n : Nat)
  | parseUint
  | invalidRLE
deriving DecidableEq, Repr

/-- The `Game` value as `LoadGame` builds it.  In Go the `current` field
is a `*Field` that stays `nil` until a header line has been seen, so it is
an `Option` here; `LoadGame` sets `game.wrap = true` once at the start and
never touches it again (the `wrap` parameter only reaches the `Field`s). -/
structure RawGame where
  width : Nat
  height : Nat
  current : Option Field
  next : Field
  wrap : Bool
  comment : List Char
deriving DecidableEq, Repr

/-- The observable outcome of running the decoding loop of `LoadGame` on
the scanned lines: a Go `return g, e` pair (where a `nil` `*Game` is
`none`), a runtime panic, or an infinite loop. -/
inductive LoadResult
  | ret (g : Option RawGame) (e : Option LifeErr)
  | panics
  | hangs
deriving DecidableEq, Repr


/-- `bytes.Split(line, []byte{'$'})`: split into the (possibly empty)
pieces between `$` separators.  `cur` holds the piece in progress in
reverse. -/
def splitDollarAux : List Char → List Char → List (List Char)
  | [], cur => [cur.reverse]
  | c :: cs, cur =>
    if c == '$' then cur.reverse :: splitDollarAux cs []
    else splitDollarAux cs (c :: cur)

def splitDollar (l : List Char) : List (List Char) := splitDollarAux l []

/-- Result of the row-filling loop
`for i, item := range definedCells { game.current.s[i], err = generateLine(item, game.width) ... }`. -/
inductive RowsRes
  | ok (rows : List (List Bool))
  | err (e : LifeErr)
  | panics
deriving DecidableEq, Repr

/-- The row-filling loop of `LoadGame`.  The backing slice was allocated
with `make([][]bool, height)`, so once the running index `i` reaches
`height` the assignment `game.current.s[i] = ...` panics — and since in a
Go tuple assignment the index store happens before `err` is inspected,
it panics there even when `generateLine` just returned an error. -/
def fillRows (width height : Nat) : List (List Char) → Nat → RowsRes
  | [], _ => .ok []
  | seg :: more, i =>
    match generateLine seg width with
    | .panics => .panics
    | .errU => if height ≤ i then .panics else .err .parseUint
    | .ok row =>
      if height ≤ i then .panics
      else match fillRows width height more (i + 1) with
        | .ok rows => .ok (row :: rows)
        | r => r

/-- The mutable locals of the scanning loop of `LoadGame`: the `game`
being filled in (width, height, current field) and the accumulated
comment text. -/
structure LoadState where
  width : Nat
  height : Nat
  current : Option Field
  comment : List Char
deriving DecidableEq, Repr

/-- Whether the scanner is between top-level lines or inside the inner
loop `for !bytes.ContainsRune(line, '!')` that concatenates pattern data
(`fld` is the field the completed block will be stored into, `acc` the
bytes concatenated so far). -/
inductive ScanMode
  | normal
  | assembling (fld : Field) (acc : List Char)
deriving DecidableEq, Repr

/-- Complete one pattern-data block: split the assembled data on `$`,
decode each segment into a row of `game.current.s` (allocated with
exactly `height` rows), and fill any remaining rows with dead cells. -/
def completeBlock (st : LoadState) (fld : Field) (data : List Char) : RowsRes :=
  let segs := splitDollar data
  match fillRows st.width st.height segs 0 with
  | .ok rows =>
    .ok (rows ++ List.replicate (st.height - segs.length) (List.replicate st.width false))
  | r => r

/-- The scanning loop of `LoadGame` over the file's lines.

In `normal` mode a line is dispatched on its first byte: empty lines are
skipped, lines over 70 bytes are skipped with a warning, `#` lines append
`line[3:]` plus a newline to the comment (Go panics when the line is
shorter than 3 bytes), `x` lines parse the header, anything else is
pattern data (an error if no header has been seen).  Pattern data whose
line already contains `!` completes immediately; otherwise the inner loop
concatenates the following lines unchecked until one makes the data
contain `!` — if the input ends first, `scanner.Scan` keeps returning
`false` with empty `Bytes()` and the Go loop spins forever (`hangs`).

At the end of input, `LoadGame` stores the comment, allocates the scratch
field and returns the game with a `nil` error. -/
def loadAux (wrap : Bool) : List (List Char) → LoadState → ScanMode → LoadResult
  | [], st, .normal =>
    .ret (some { width := st.width, height := st.height, current := st.current
                 next := NewField st.width st.height wrap, wrap := true
                 comment := st.comment }) none
  | [], _, .assembling _ _ => .hangs
  | line :: rest, st, .assembling fld acc =>
    let acc' := acc ++ line
    if acc'.contains '!' then
      match completeBlock st fld acc' with
      | .panics => .panics
      | .err e => .ret none (some e)
      | .ok rows =>
        loadAux wrap rest { st with current := some { fld with s := rows } } .normal
    else
      loadAux wrap rest st (.assembling fld acc')
  | line :: rest, st, .normal =>
    match line with
    | [] => loadAux wrap rest st .normal
    | c :: cs =>
      if 70 < (c :: cs).length then loadAux wrap rest st .normal
      else if c == '#' then
        if (c :: cs).length < 3 then .panics
        else
          loadAux wrap rest
            { st with comment := st.comment ++ (c :: cs).drop 3 ++ ['\n'] } .normal
      else if c == 'x' then
        if ruleRejected (c :: cs) then .ret none (some .rulesNotSupported)
        else
          match (digitRuns (c :: cs)).take 2 with
          | [a, b] =>
            match parseUintBase0 a with
            | none => .ret none (some .parseUint)
            | some w =>
              match parseUintBase0 b with
              | none => .ret none (some .parseUint)
              | some h =>
                loadAux wrap rest
                  { st with width := w, height := h, current := some (NewField w h wrap) }
                  .normal
          | runs => .ret none (some (.paramCount runs.length))
      else
        match st.current with
        | none => .ret none (some .invalidRLE)
        | some fld =>
          if (c :: cs).contains '!' then
            match completeBlock st fld (c :: cs) with
            | .panics => .panics
            | .err e => .ret none (some e)
            | .ok rows =>
              loadAux wrap rest { st with current := some { fld with s := rows } } .normal
          else
            loadAux wrap rest st (.assembling fld (c :: cs))

/-- The text-decoding part of `LoadGame`, applied to the scanned lines of
the file. -/
def loadGame (wrap : Bool) (lines : List (List Char)) : LoadResult :=
  loadAux wrap lines { width := 0, height := 0, current := none, comment := [] } .normal


/-- C3 (divergence witness): a pattern-data block that is never terminated
by `!` does not produce an error return: the inner loop keeps calling
`scanner.Scan` after the input is exhausted, each call returns no bytes,
and the loop spins forever, so `LoadGame` never returns at all. -/
theorem C3_unterminated_hangs :
    loadGame true ["x = 2, y = 2".toList, "bo".toList] = .hangs := by
  rfl

/-- C5: decoding the glider fixture (header `x = 3, y = 3`, body
`bo$2bo$3o!`) succeeds with no error and yields the 3×3 grid with rows
`[false,true,false]`, `[false,false,true]`, `[true,true,true]`. -/
theorem C5_glider_fixture :
    loadGame true ["x = 3, y = 3".toList, "bo$2bo$3o!".toList]
      = .ret (some
          { width := 3, height := 3
            current := some
              { s := [[false, true, false], [false, false, true], [true, true, true]]
                width := 3, height := 3, wrap := true }
            next := NewField 3 3 true, wrap := true, comment := [] }) none := by
  rfl

/-- C6 (counterexample): the header `x = 3, y = 3, rule = B3/S236`
mentions a rule token whose rule is not the canonical `b3/s23`, yet
decoding succeeds and returns a usable grid — the code only checks that
`b3/s23` occurs case-insensitively as a substring, and `B3/S236` contains
it. -/
theorem C6_counterexample :
    hasSub "x = 3, y = 3, rule = B3/S236".toList ruleBytes = true ∧
    loadGame true ["x = 3, y = 3, rule = B3/S236".toList, "o!".toList]
      = .ret (some
          { width := 3, height := 3
            current := some
              { s := [[true, false, false], [false, false, false], [false, false, false]]
                width := 3, height := 3, wrap := true }
            next := NewField 3 3 true, wrap := true, comment := [] }) none := by
  constructor <;> rfl

/-- C4 (counterexample): the header line `x = 3, y = 3, rule = b3/s23`
contains four decimal digit-runs, not two, yet decoding succeeds (with
width and height taken from the first two runs) instead of failing —
`FindAll(line, 2)` stops after two matches, so surplus digit-runs are
never detected. -/
theorem C4_counterexample :
    (digitRuns "x = 3, y = 3, rule = b3/s23".toList).length = 4 ∧
    loadGame true ["x = 3, y = 3, rule = b3/s23".toList]
      = .ret (some
          { width := 3, height := 3, current := some (NewField 3 3 true)
            next := NewField 3 3 true, wrap := true, comment := [] }) none := by
  constructor <;> rfl

/-- C6 (amended): any header line (at most 70 bytes) that contains the
bytes `rule` but does not contain `b3/s23` case-insensitively is rejected:
decoding returns the rules-not-supported error and no grid. -/
theorem C6_rule_rejected (wrap : Bool) (cs : List Char)
    (hlen : ('x' :: cs).length ≤ 70)
    (hrej : ruleRejected ('x' :: cs) = true) :
    loadGame wrap ['x' :: cs] = .ret none (some .rulesNotSupported) := by
  unfold loadGame
  simp only [loadAux]
  rw [if_neg (by omega), if_neg (by decide), if_pos (by decide), if_pos hrej]

/-- C4 (amended): for a header line (at most 70 bytes, passing the rule
test), decoding fails with the parameter-count error iff fewer than two
digit-runs are found; when at least two are present, the first two (and
only those) are parsed, and on success they become the grid width and
height, any other text on the line being ignored. -/
theorem C4_header_params (wrap : Bool) (cs : List Char)
    (hlen : ('x' :: cs).length ≤ 70)
    (hrule : ruleRejected ('x' :: cs) = false) :
    ((digitRuns ('x' :: cs)).length < 2 →
      loadGame wrap ['x' :: cs]
        = .ret none (some (.paramCount (digitRuns ('x' :: cs)).length))) ∧
    (∀ a b t va vb, digitRuns ('x' :: cs) = a :: b :: t →
      parseUintBase0 a = some va → parseUintBase0 b = some vb →
      loadGame wrap ['x' :: cs]
        = .ret (some
            { width := va, height := vb, current := some (NewField va vb wrap)
              next := NewField va vb wrap, wrap := true, comment := [] }) none) := by
  constructor
  · intro hshort
    unfold loadGame
    simp only [loadAux]
    rw [if_neg (by omega), if_neg (by decide), if_pos (by decide), if_neg (by simp [hrule])]
    rcases hd : digitRuns ('x' :: cs) with _ | ⟨a, _ | ⟨b, t⟩⟩
    · simp
    · simp
    · rw [hd] at hshort
      simp only [List.length_cons] at hshort
      omega
  · intro a b t va vb hd hpa hpb
    unfold loadGame
    simp only [loadAux]
    rw [if_neg (by omega), if_neg (by decide), if_pos (by decide), if_neg (by simp [hrule])]
    rw [hd]
    simp [hpa, hpb]

/-- Every error return of the scanning loop pairs the error with a `nil`
game pointer: no branch of `loadAux` returns a game together with an
error. -/
theorem loadAux_err_nil (wrap : Bool) (lines : List (List Char)) :
    ∀ (st : LoadState) (mode : ScanMode) (g : Option RawGame) (e : LifeErr),
      loadAux wrap lines st mode = .ret g (some e) → g = none := by
  induction lines with
  | nil =>
    intro st mode g e h
    cases mode <;> simp [loadAux] at h
  | cons line rest ih =>
    intro st mode g e h
    cases mode with
    | assembling fld acc =>
      simp only [loadAux] at h
      split at h
      · split at h
        · cases h
        · injection h with h1 h2; exact h1.symm
        · exact ih _ _ _ _ h
      · exact ih _ _ _ _ h
    | normal =>
      cases line with
      | nil =>
        simp only [loadAux] at h
        exact ih _ _ _ _ h
      | cons c cs =>
        simp only [loadAux] at h
        split at h
        · exact ih _ _ _ _ h
        · split at h
          · split at h
            · cases h
            · exact ih _ _ _ _ h
          · split at h
            · split at h
              · injection h with h1 h2; exact h1.symm
              · split at h
                · split at h
                  · injection h with h1 h2; exact h1.symm
                  · split at h
                    · injection h with h1 h2; exact h1.symm
                    · exact ih _ _ _ _ h
                · injection h with h1 h2; exact h1.symm
            · split at h
              · injection h with h1 h2; exact h1.symm
              · split at h
                · split at h
                  · cases h
                  · injection h with h1 h2; exact h1.symm
                  · exact ih _ _ _ _ h
                · exact ih _ _ _ _ h

/-- C7: on every input on which the decoding fails, `LoadGame` returns the
error together with a `nil` game: the caller never sees a partial grid
alongside an error. -/
theorem C7_error_means_nil (wrap : Bool) (lines : List (List Char))
    (g : Option RawGame) (e : LifeErr)
    (h : loadGame wrap lines = .ret g (some e)) :
    loadGame wrap lines = .ret none (some e) := by
  rw [h, loadAux_err_nil wrap lines _ _ g e h]

theorem C7_witness :
    loadGame true [['o']] = .ret none (some .invalidRLE) :=
  C7_error_means_nil true [['o']] none .invalidRLE (by rfl)

/-- Does `generateLine` succeed? -/
def genOk : GenRes → Bool
  | .ok _ => true
  | _ => false

/-- If the segment list runs past row index `height` and every segment at
an index below `height` decodes without error, the row-filling loop of
`LoadGame` reaches the out-of-range store `game.current.s[i]` and
panics. -/
theorem fillRows_panics (width height : Nat) :
    ∀ (segs : List (List Char)) (i : Nat), segs ≠ [] →
      height < i + segs.length →
      (∀ j, j < segs.length → i + j < height →
        genOk (generateLine (segs.getD j []) width) = true) →
      fillRows width height segs i = .panics := by
  intro segs
  induction segs with
  | nil => intro i hne; exact absurd rfl hne
  | cons seg more ih =>
    intro i _ hlen hok
    by_cases hi : height ≤ i
    · cases hg : generateLine seg width <;> simp [fillRows, hg, hi]
    · have h0 := hok 0 (by simp) (by omega)
      simp only [List.getD_cons_zero] at h0
      cases hg : generateLine seg width with
      | panics => simp [fillRows, hg]
      | errU => rw [hg] at h0; cases h0
      | ok row =>
        have hmore : more ≠ [] := by
          cases more with
          | nil => simp at hlen; omega
          | cons u us => exact List.cons_ne_nil u us
        have hrec : fillRows width height more (i + 1) = .panics := by
          apply ih (i + 1) hmore (by simp at hlen ⊢; omega)
          intro j hj hij
          have := hok (j + 1) (by simp; omega) (by omega)
          simpa using this
        simp [fillRows, hg, hi, hrec]

/-- C10 (amended): when the assembled pattern data splits on `$` into more
row segments than the declared height, and each of the segments at an
index below the height decodes without error, `LoadGame` does not return
an error result: the row buffer was allocated with exactly `height` rows
and segments are stored by index, so the decode panics with an
out-of-range store instead of surfacing a parse error. -/
theorem C10_excess_segments_panic (wrap : Bool) (cs ds : List Char) (d : Char)
    (a b : List Char) (t : List (List Char)) (va vb : Nat)
    (hlen1 : ('x' :: cs).length ≤ 70)
    (hrule : ruleRejected ('x' :: cs) = false)
    (hd : digitRuns ('x' :: cs) = a :: b :: t)
    (hpa : parseUintBase0 a = some va) (hpb : parseUintBase0 b = some vb)
    (hdlen : (d :: ds).length ≤ 70) (hd1 : d ≠ '#') (hd2 : d ≠ 'x')
    (hbang : (d :: ds).contains '!' = true)
    (hsegs : vb < (splitDollar (d :: ds)).length)
    (hok : ∀ j, j < (splitDollar (d :: ds)).length → j < vb →
      genOk (generateLine ((splitDollar (d :: ds)).getD j []) va) = true) :
    loadGame wrap ['x' :: cs, d :: ds] = .panics := by
  have hfill : fillRows va vb (splitDollar (d :: ds)) 0 = .panics := by
    apply fillRows_panics va vb (splitDollar (d :: ds)) 0
    · intro hemp
      rw [hemp] at hsegs
      simp at hsegs
    · omega
    · intro j hj hij
      exact hok j hj (by omega)
  unfold loadGame
  simp only [loadAux]
  rw [if_neg (by omega), if_neg (by decide), if_pos (by decide), if_neg (by simp [hrule])]
  rw [hd]
  simp [hpa, hpb, hd1, hd2, hdlen, hbang, hfill, completeBlock]
  rw [if_neg (by simp at hdlen; omega), if_pos (by simpa using hbang)]

theorem C6_witness :
    loadGame true ['x' :: ", rule = B36/S23".toList]
      = .ret none (some .rulesNotSupported) :=
  C6_rule_rejected true ", rule = B36/S23".toList (by decide) (by decide)

theorem C4_witness :
    loadGame true ['x' :: " = 5, y = 4, z = 9".toList]
      = .ret (some
          { width := 5, height := 4, current := some (NewField 5 4 true)
            next := NewField 5 4 true, wrap := true, comment := [] }) none :=
  (C4_header_params true " = 5, y = 4, z = 9".toList (by decide) (by decide)).2
    ['5'] ['4'] [['9']] 5 4 (by decide) (by decide) (by decide)

theorem C10_witness :
    loadGame true ['x' :: " = 2, y = 1".toList, 'o' :: "$o$o!".toList] = .panics :=
  C10_excess_segments_panic true " = 2, y = 1".toList "$o$o!".toList 'o'
    ['2'] ['1'] [] 2 1 (by decide) (by decide) (by decide) (by decide) (by decide)
    (by decide) (by decide) (by decide) (by decide) (by decide) (by decide)

/-- C10 (counterexample): pattern data that splits into more segments than
the declared height does not always fault — when an early segment fails to
decode, `LoadGame` returns an ordinary parse error first: with declared
height 1 and data `08b$o$o!` (3 segments), the run count `08` is invalid
for base-0 `ParseUint` (leading zero selects octal) and the decode returns
an error result rather than panicking. -/
theorem C10_counterexample :
    1 < (splitDollar "08b$o$o!".toList).length ∧
    loadGame true ["x = 2, y = 1".toList, "08b$o$o!".toList]
      = .ret none (some .parseUint) := by
  exact ⟨by decide, rfl⟩
